import Mathlib

/-!
Verification of the geometry and arrow-routing core of the
yet-another-gantt repository (`src/bar.js`, `src/arrow.js`).

Pixel coordinates, widths and progress values are modelled as rationals
(the JavaScript source computes with IEEE doubles; every claim under
study is about the exact arithmetic of the formulas, which we embed
over `ℚ`).

Loops in the source (`while` loops in `Arrow.calculate_path` and
`Bar.calculate_progress_width`) are embedded as structurally recursive
functions driven by an explicitly computed fuel; a theorem then shows
the fuel always suffices, i.e. the function exits because the loop
condition failed, never because fuel ran out.  This keeps every
definition executable by `decide`.
-/

namespace Gantt

/-- A point together with the configured ignored pixel columns.
Modelled from the spec: `gantt.get_ignored_region` is called by
`Bar.calculate_progress_width` but its body is not under `src/`;
the spec (§3 IgnoredRegion, §4.2 step 4) describes ignored regions as
pixel ranges of one column width anchored at each configured ignored
position, a point `p` lying inside the region anchored at `v`
(covering pixel columns `[v, v + column_width)`) iff `v ≤ p < v + column_width`. -/
def get_ignored_region (positions : List ℚ) (column_width : ℚ) (p : ℚ) : List ℚ :=
  positions.filter (fun v => decide (v ≤ p) && decide (p < v + column_width))

/-- From `src/bar.js` lines 219-230: the `reduce` accumulating, over the
configured ignored positions, the count of those lying in `[lo, hi)`
(the JavaScript boolean `val >= lo && val < hi` coerces to 0/1),
multiplied by the column width. -/
def ignored_area (positions : List ℚ) (lo hi column_width : ℚ) : ℚ :=
  (positions.foldl (fun acc v => acc + if lo ≤ v ∧ v < hi then 1 else 0) 0) * column_width

/-- An upper bound for the configured ignored positions (0 when none). -/
def max_position (positions : List ℚ) : ℚ :=
  positions.foldr max 0

/-- Fuel sufficient for the trailing extension loop of
`calculate_progress_width`: the number of steps of size `column_width`
from `x + pw` up to past the last ignored region. -/
def extend_fuel (positions : List ℚ) (column_width x pw : ℚ) : ℕ :=
  (⌈(max_position positions + column_width - (x + pw)) / column_width⌉).toNat

/-- The trailing extension loop of `src/bar.js` lines 234-244, fueled:
while the right edge `x + pw` lies inside some ignored region, add one
full column width. -/
def extend_go (positions : List ℚ) (column_width x : ℚ) : ℕ → ℚ → ℚ
  | 0, pw => pw
  | n + 1, pw =>
    if get_ignored_region positions column_width (x + pw) ≠ [] then
      extend_go positions column_width x n (pw + column_width)
    else pw

/-- The trailing extension loop of `calculate_progress_width`, run with
sufficient fuel. -/
def extend_progress (positions : List ℚ) (column_width x pw : ℚ) : ℚ :=
  extend_go positions column_width x (extend_fuel positions column_width x pw) pw

/-- `Bar.calculate_progress_width` from `src/bar.js` lines 215-247:
`width` is the bar's pixel width, `x` its pixel offset, `progress` the
task's (already clamped) progress percentage. -/
def calculate_progress_width (x width progress : ℚ) (positions : List ℚ)
    (column_width : ℚ) : ℚ :=
  let ignored_end := x + width
  let total_ignored_area := ignored_area positions x ignored_end column_width
  let progress_width := (width - total_ignored_area) * progress / 100
  let progress_end := x + progress_width
  let total_ignored_progress := ignored_area positions x progress_end column_width
  extend_progress positions column_width x (progress_width + total_ignored_progress)

/-- The progress-width formula as the spec words it (§4.2): the ignored
area inside a span is the column width times the *number* of ignored
positions falling in the span, counted with `List.countP`; steps
(1)-(4) then follow the spec text. -/
def progress_width_spec (x width progress : ℚ) (positions : List ℚ)
    (column_width : ℚ) : ℚ :=
  let total_ignored_area :=
    column_width * (positions.countP (fun v => decide (x ≤ v) && decide (v < x + width)) : ℕ)
  let progress_width := (width - total_ignored_area) * progress / 100
  let add_back :=
    column_width *
      (positions.countP (fun v => decide (x ≤ v) && decide (v < x + progress_width)) : ℕ)
  extend_progress positions column_width x (progress_width + add_back)

/-- Shifting the accumulator out of the counting foldl. -/
theorem count_foldl_shift (lo hi : ℚ) (l : List ℚ) (q : ℚ) :
    l.foldl (fun acc v => acc + if lo ≤ v ∧ v < hi then 1 else 0) q =
      q + l.foldl (fun acc v => acc + if lo ≤ v ∧ v < hi then 1 else 0) 0 := by
  induction l generalizing q with
  | nil => simp
  | cons b m ihm =>
    simp only [List.foldl_cons]
    rw [ihm, ihm (0 + _)]
    ring

/-- The foldl in the source's `reduce` counts exactly the positions
satisfying the predicate. -/
theorem ignored_area_eq_countP (positions : List ℚ) (lo hi c : ℚ) :
    ignored_area positions lo hi c =
      c * (positions.countP (fun v => decide (lo ≤ v) && decide (v < hi)) : ℕ) := by
  unfold ignored_area
  rw [mul_comm]
  congr 1
  induction positions with
  | nil => simp
  | cons a l ih =>
    rw [List.countP_cons]
    simp only [List.foldl_cons]
    by_cases h : lo ≤ a ∧ a < hi
    · have hd : (decide (lo ≤ a) && decide (a < hi)) = true := by
        simp [h.1, h.2]
      rw [if_pos h, hd, count_foldl_shift lo hi l (0 + 1), ih]
      push_cast
      simp
      ring
    · have hd : (decide (lo ≤ a) && decide (a < hi)) = false := by
        rcases not_and_or.mp h with h1 | h2
        · simp [h1]
        · simp [h2]
      rw [if_neg h, hd]
      simpa using ih

/-- Every configured ignored position is bounded by `max_position`. -/
theorem mem_le_max_position {positions : List ℚ} {v : ℚ} (hv : v ∈ positions) :
    v ≤ max_position positions := by
  unfold max_position
  induction positions with
  | nil => cases hv
  | cons a l ih =>
    rcases List.mem_cons.mp hv with rfl | hmem
    · exact le_max_left _ _
    · exact le_trans (ih hmem) (le_max_right _ _)

/-- The ignored-region query is nonempty exactly when some configured
position anchors a region containing the point. -/
theorem get_ignored_region_ne_nil_iff (positions : List ℚ) (c p : ℚ) :
    get_ignored_region positions c p ≠ [] ↔
      ∃ v ∈ positions, v ≤ p ∧ p < v + c := by
  unfold get_ignored_region
  constructor
  · intro h
    obtain ⟨v, hv⟩ := List.exists_mem_of_ne_nil _ h
    have := List.mem_filter.mp hv
    refine ⟨v, this.1, ?_, ?_⟩
    · have := this.2
      simp only [Bool.and_eq_true, decide_eq_true_eq] at this
      exact this.1
    · have := this.2
      simp only [Bool.and_eq_true, decide_eq_true_eq] at this
      exact this.2
  · rintro ⟨v, hvmem, h1, h2⟩
    intro hnil
    have : v ∈ positions.filter (fun v => decide (v ≤ p) && decide (p < v + c)) := by
      apply List.mem_filter.mpr
      refine ⟨hvmem, ?_⟩
      simp [h1, h2]
    rw [hnil] at this
    cases this

/-- With at least `extend_fuel` steps of fuel, the fueled extension loop
exits because the loop guard failed: the final right edge lies in no
ignored region, and the result is the start plus a whole number of
column widths. -/
theorem extend_go_exit (positions : List ℚ) (c x : ℚ) (hc : 0 < c) :
    ∀ (fuel : ℕ) (pw : ℚ), extend_fuel positions c x pw ≤ fuel →
      get_ignored_region positions c (x + extend_go positions c x fuel pw) = [] ∧
      ∃ n : ℕ, extend_go positions c x fuel pw = pw + n * c := by
  intro fuel
  induction fuel with
  | zero =>
    intro pw hfuel
    have h0 : extend_fuel positions c x pw = 0 := Nat.le_zero.mp hfuel
    unfold extend_fuel at h0
    have hceil : ⌈(max_position positions + c - (x + pw)) / c⌉ ≤ 0 := by omega
    have hdiv : (max_position positions + c - (x + pw)) / c ≤ 0 := by
      have := Int.ceil_le.mp hceil
      exact_mod_cast this
    have hnum : max_position positions + c - (x + pw) ≤ 0 := by
      by_contra hpos
      push_neg at hpos
      have := div_pos hpos hc
      linarith
    have hempty : get_ignored_region positions c (x + pw) = [] := by
      by_contra hne
      obtain ⟨v, hvmem, _, h2⟩ := (get_ignored_region_ne_nil_iff positions c (x + pw)).mp hne
      have := mem_le_max_position hvmem
      linarith
    refine ⟨?_, 0, ?_⟩
    · simpa [extend_go] using hempty
    · simp [extend_go]
  | succ fuel ih =>
    intro pw hfuel
    by_cases hreg : get_ignored_region positions c (x + pw) ≠ []
    · have hstep : extend_go positions c x (fuel + 1) pw =
          extend_go positions c x fuel (pw + c) := by
        simp [extend_go, hreg]
      obtain ⟨v, hvmem, h1, h2⟩ := (get_ignored_region_ne_nil_iff positions c (x + pw)).mp hreg
      have hvmax : v ≤ max_position positions := mem_le_max_position hvmem
      have hnumpos : 0 < max_position positions + c - (x + pw) := by linarith
      have hceilpos : 0 < ⌈(max_position positions + c - (x + pw)) / c⌉ :=
        Int.ceil_pos.mpr (div_pos hnumpos hc)
      have hshift : (max_position positions + c - (x + (pw + c))) / c =
          (max_position positions + c - (x + pw)) / c - 1 := by
        field_simp
        ring
      have hfuel' : extend_fuel positions c x (pw + c) ≤ fuel := by
        unfold extend_fuel at hfuel ⊢
        rw [hshift, Int.ceil_sub_one]
        omega
      obtain ⟨hexit, n, hn⟩ := ih (pw + c) hfuel'
      rw [hstep]
      exact ⟨hexit, n + 1, by rw [hn]; push_cast; ring⟩
    · push_neg at hreg
      have hstep : extend_go positions c x (fuel + 1) pw = pw := by
        simp [extend_go, hreg]
      rw [hstep]
      exact ⟨hreg, 0, by ring⟩

/-- C1: `calculate_progress_width` coincides, for every bar position,
width, progress, ignored-position set and column width, with the
spec-worded reduced-denominator formula (`progress_width_spec`): subtract
the column width times the count of ignored positions in
`[x, x+width)`, scale by `progress/100`, add back the ignored area in
`[x, x+progress_width)`, then extend past ignored regions by whole
column widths; in the concrete scenario of one ignored column
`[60, 90)`, `x = 0`, `width = 150`, `progress = 50`, the result is `90`,
not the naive `150 × 0.5 = 75`. -/
theorem calculate_progress_width_correct :
    (∀ (x width progress : ℚ) (positions : List ℚ) (c : ℚ),
      calculate_progress_width x width progress positions c =
        progress_width_spec x width progress positions c) ∧
    calculate_progress_width 0 150 50 [60] 30 = 90 ∧
    calculate_progress_width 0 150 50 [60] 30 ≠ 75 := by
  refine ⟨?_, ?_, ?_⟩
  · intro x width progress positions c
    simp only [calculate_progress_width, progress_width_spec]
    rw [ignored_area_eq_countP, ignored_area_eq_countP]
  · norm_num [calculate_progress_width, ignored_area, List.foldl, extend_progress,
      extend_fuel, max_position, List.foldr, extend_go, get_ignored_region, List.filter]
  · norm_num [calculate_progress_width, ignored_area, List.foldl, extend_progress,
      extend_fuel, max_position, List.foldr, extend_go, get_ignored_region, List.filter]

/-- C8: for every finite ignored-position set and positive column
width, the trailing extension loop of `calculate_progress_width`
(embedded as `extend_progress`, to which `calculate_progress_width`
applies the pre-loop progress width) terminates with the loop guard
false: the final right edge lies in no ignored region, and the result
is the starting value plus a whole number of column widths. -/
theorem calculate_progress_width_loop_terminates (positions : List ℚ) (c x pw : ℚ)
    (hc : 0 < c) :
    get_ignored_region positions c (x + extend_progress positions c x pw) = [] ∧
    ∃ n : ℕ, extend_progress positions c x pw = pw + n * c :=
  extend_go_exit positions c x hc _ pw (le_refl _)

/-- Witness for C8 at `positions = [60]`, `c = 30`, `x = 0`, `pw = 60`. -/
theorem calculate_progress_width_loop_terminates_witness :
    (0 : ℚ) < 30 ∧
    get_ignored_region [60] 30 (0 + extend_progress [60] 30 0 60) = [] ∧
    ∃ n : ℕ, extend_progress [60] 30 0 60 = 60 + n * 30 :=
  ⟨by norm_num,
    (calculate_progress_width_loop_terminates [60] 30 0 60 (by norm_num)).1,
    (calculate_progress_width_loop_terminates [60] 30 0 60 (by norm_num)).2⟩

/-- C10: `progress_width ≤ width` is not an invariant of
`calculate_progress_width`: for a bar at `x = 0` of width `30` with
progress `100`, no ignored position inside `[0, 30)` but an ignored
region `[30, 60)` just past the bar's right edge, the returned
progress width is `60`, strictly greater than the bar's width `30`. -/
theorem calculate_progress_width_exceeds_width :
    calculate_progress_width 0 30 100 [30] 30 = 60 ∧
    (30 : ℚ) < calculate_progress_width 0 30 100 [30] 30 ∧
    ignored_area [30] 0 (0 + 30) 30 = 0 ∧
    get_ignored_region [30] 30 (0 + 30) ≠ [] := by
  refine ⟨?_, ?_, ?_, ?_⟩ <;>
    norm_num [calculate_progress_width, ignored_area, List.foldl, extend_progress,
      extend_fuel, max_position, List.foldr, extend_go, get_ignored_region, List.filter]

/-- The progress clamp of `Bar.prepare_values`, `src/bar.js` lines
81-84: `if (!this.task.progress || this.task.progress < 0)
this.task.progress = 0; if (this.task.progress > 100)
this.task.progress = 100;`.  JavaScript truthiness makes
`!this.task.progress` true when the value is absent (`undefined`) or
`0`; an absent value is modelled as `none`. -/
def clamp_progress (progress : Option ℚ) : ℚ :=
  let p1 : ℚ :=
    match progress with
    | none => 0
    | some v => if v = 0 ∨ v < 0 then 0 else v
  if 100 < p1 then 100 else p1

/-- Evaluation of the clamp on a present value. -/
theorem clamp_progress_some (v : ℚ) :
    clamp_progress (some v) =
      if 100 < (if v = 0 ∨ v < 0 then 0 else v) then 100
      else (if v = 0 ∨ v < 0 then 0 else v) := rfl

/-- Evaluation of the clamp on an absent value. -/
theorem clamp_progress_none : clamp_progress none = 0 := by
  norm_num [clamp_progress]

/-- A falsy or negative progress value clamps to 0. -/
theorem clamp_progress_some_nonpos (v : ℚ) (h : v = 0 ∨ v < 0) :
    clamp_progress (some v) = 0 := by
  rw [clamp_progress_some, if_pos h]
  norm_num

/-- A progress value above 100 clamps to 100. -/
theorem clamp_progress_some_big (v : ℚ) (h : 100 < v) :
    clamp_progress (some v) = 100 := by
  rw [clamp_progress_some]
  have h1 : ¬(v = 0 ∨ v < 0) := by
    push_neg
    exact ⟨ne_of_gt (by linarith), by linarith⟩
  rw [if_neg h1, if_pos h]

/-- A progress value already in (0, 100] is left unchanged. -/
theorem clamp_progress_some_mid (v : ℚ) (h0 : 0 < v) (h : v ≤ 100) :
    clamp_progress (some v) = v := by
  rw [clamp_progress_some]
  have h1 : ¬(v = 0 ∨ v < 0) := by
    push_neg
    exact ⟨ne_of_gt h0, le_of_lt h0⟩
  rw [if_neg h1, if_neg (not_lt.mpr h)]

/-- Clamping an already clamped progress changes nothing. -/
theorem clamp_progress_idem (p : Option ℚ) :
    clamp_progress (some (clamp_progress p)) = clamp_progress p := by
  cases p with
  | none =>
    rw [clamp_progress_none]
    exact clamp_progress_some_nonpos 0 (Or.inl rfl)
  | some v =>
    by_cases h1 : v = 0 ∨ v < 0
    · rw [clamp_progress_some_nonpos v h1]
      exact clamp_progress_some_nonpos 0 (Or.inl rfl)
    · push_neg at h1
      have h0 : 0 < v := lt_of_le_of_ne h1.2 (Ne.symm h1.1)
      by_cases h2 : 100 < v
      · rw [clamp_progress_some_big v h2]
        exact clamp_progress_some_mid 100 (by norm_num) (le_refl _)
      · rw [clamp_progress_some_mid v h0 (not_lt.mp h2)]
        exact clamp_progress_some_mid v h0 (not_lt.mp h2)

/-- C2: after the progress clamp of `prepare_values`, progress lies in
`[0, 100]`; an absent input becomes `0`, a negative input becomes `0`,
and an input above `100` becomes `100`. -/
theorem prepare_values_clamps_progress (p : Option ℚ) :
    0 ≤ clamp_progress p ∧ clamp_progress p ≤ 100 ∧
    (p = none → clamp_progress p = 0) ∧
    (∀ v, p = some v → v < 0 → clamp_progress p = 0) ∧
    (∀ v, p = some v → 100 < v → clamp_progress p = 100) := by
  cases p with
  | none =>
    rw [clamp_progress_none]
    exact ⟨le_refl 0, by norm_num, fun _ => rfl,
      fun v h => Option.noConfusion h, fun v h => Option.noConfusion h⟩
  | some v =>
    by_cases h1 : v = 0 ∨ v < 0
    · rw [clamp_progress_some_nonpos v h1]
      refine ⟨le_refl 0, by norm_num, fun h => Option.noConfusion h,
        fun _ _ _ => rfl, ?_⟩
      intro w hw h100
      injection hw with hvw
      rw [← hvw] at h100
      rcases h1 with h | h <;> linarith
    · push_neg at h1
      have h0 : 0 < v := lt_of_le_of_ne h1.2 (Ne.symm h1.1)
      by_cases h2 : 100 < v
      · rw [clamp_progress_some_big v h2]
        refine ⟨by norm_num, le_refl 100, fun h => Option.noConfusion h,
          ?_, fun _ _ _ => rfl⟩
        intro w hw hneg
        injection hw with hvw
        rw [← hvw] at hneg
        linarith
      · rw [clamp_progress_some_mid v h0 (not_lt.mp h2)]
        refine ⟨le_of_lt h0, not_lt.mp h2, fun h => Option.noConfusion h, ?_, ?_⟩
        · intro w hw hneg
          injection hw with hvw
          rw [← hvw] at hneg
          linarith
        · intro w hw h100
          injection hw with hvw
          rw [← hvw] at h100
          exact absurd h100 h2

/-- Witness for C2 at a negative, an over-100 and an absent input. -/
theorem prepare_values_clamps_progress_witness :
    clamp_progress (some (-5)) = 0 ∧ clamp_progress (some 150) = 100 ∧
    clamp_progress none = 0 :=
  ⟨(prepare_values_clamps_progress (some (-5))).2.2.2.1 (-5) rfl (by norm_num),
   (prepare_values_clamps_progress (some 150)).2.2.2.2 150 rfl (by norm_num),
   (prepare_values_clamps_progress none).2.2.1 rfl⟩

/-- A task, restricted to the fields the geometry pass reads or
writes.  Dates are modelled as rational time coordinates in the axis
unit. -/
structure GanttTask where
  progress : Option ℚ
  start_date : ℚ
  end_date : ℚ
  index : ℤ

/-- The gantt options/config fields read by the geometry pass. -/
structure GanttConfig where
  column_width : ℚ
  step : ℚ
  gantt_start : ℚ
  header_height : ℚ
  bar_height : ℚ
  padding : ℚ
  bar_corner_radius : ℚ
  ignored_positions : List ℚ

/-- The Bar view values produced by the geometry pass. -/
structure BarGeom where
  x : ℚ
  y : ℚ
  width : ℚ
  height : ℚ
  corner_radius : ℚ
  progress_width : ℚ

/-- Modelled from the spec: `compute_x` is called by `prepare_values`
(`src/bar.js` line 76) but its body is not under `src/`; spec §4.2:
pixel offset = (date-distance from axis start to task.start in axis
units) / step × column_width. -/
def compute_x (t : GanttTask) (g : GanttConfig) : ℚ :=
  (t.start_date - g.gantt_start) / g.step * g.column_width

/-- Modelled from the spec: `compute_y` is called by `prepare_values`
(`src/bar.js` line 77) but its body is not under `src/`; spec §4.2:
`y = header_height + (padding + bar_height) × task.index + padding/2`. -/
def compute_y (t : GanttTask) (g : GanttConfig) : ℚ :=
  g.header_height + (g.padding + g.bar_height) * t.index + g.padding / 2

/-- Modelled from the spec: `compute_duration` is called by
`prepare_values` (`src/bar.js` line 78) but its body is not under
`src/`; spec §4.2 derives the duration from task.start to task.end in
axis units over the step, and `prepare_values` line 80 sets
`width = column_width × duration`. -/
def compute_duration (t : GanttTask) (g : GanttConfig) : ℚ :=
  (t.end_date - t.start_date) / g.step

/-- `Bar.prepare_values` from `src/bar.js` lines 70-85: computes the
bar's x, y, width and height from the task and axis and clamps the
task's progress in place (returned as the updated task). -/
def prepare_values (t : GanttTask) (g : GanttConfig) : GanttTask × BarGeom :=
  ({ t with progress := some (clamp_progress t.progress) },
   { x := compute_x t g
     y := compute_y t g
     width := g.column_width * compute_duration t g
     height := g.bar_height
     corner_radius := g.bar_corner_radius
     progress_width := 0 })

/-- The geometry pass of one refresh: `prepare_values` followed by
`calculate_progress_width` (which reads the bar's x and width and the
task's now-clamped progress). -/
def geometry_pass (t : GanttTask) (g : GanttConfig) : GanttTask × BarGeom :=
  let tb := prepare_values t g
  let pw := calculate_progress_width tb.2.x tb.2.width (tb.1.progress.getD 0)
    g.ignored_positions g.column_width
  (tb.1, { tb.2 with progress_width := pw })

/-- C9: running the geometry pass twice with unchanged task, axis and
ignored-region state yields identical task and Bar values — the second
invocation reproduces the first's x, y, width, height and
progress_width, the internal progress clamp being idempotent. -/
theorem geometry_pass_idempotent (t : GanttTask) (g : GanttConfig) :
    geometry_pass (geometry_pass t g).1 g = geometry_pass t g := by
  simp [geometry_pass, prepare_values, compute_x, compute_y, compute_duration,
    clamp_progress_idem]

/-- Fuel sufficient for the start-x adjustment loop of
`Arrow.calculate_path`: the number of 10-pixel steps from `s` down to
`from_x + padding`. -/
def adjust_fuel (from_x padding s : ℚ) : ℕ :=
  (⌈(s - from_x - padding) / 10⌉).toNat

/-- The start-x adjustment loop of `src/arrow.js` lines 31-37, fueled:
while `to_x < s + padding` and `s > from_x + padding`, decrement `s`
by 10. -/
def adjust_go (to_x from_x padding : ℚ) : ℕ → ℚ → ℚ
  | 0, s => s
  | n + 1, s =>
    if to_x < s + padding ∧ from_x + padding < s then
      adjust_go to_x from_x padding n (s - 10)
    else s

/-- The start-x adjustment loop, run with sufficient fuel. -/
def adjust_start_x (to_x from_x padding s : ℚ) : ℚ :=
  adjust_go to_x from_x padding (adjust_fuel from_x padding s) s

/-- With at least `adjust_fuel` steps of fuel, the fueled adjustment
loop exits because the loop guard failed, having decremented the start
by some number of 10-pixel steps. -/
theorem adjust_go_exit (to_x from_x padding : ℚ) :
    ∀ (fuel : ℕ) (s : ℚ), adjust_fuel from_x padding s ≤ fuel →
      ¬(to_x < adjust_go to_x from_x padding fuel s + padding ∧
          from_x + padding < adjust_go to_x from_x padding fuel s) ∧
      ∃ n : ℕ, adjust_go to_x from_x padding fuel s = s - 10 * n := by
  intro fuel
  induction fuel with
  | zero =>
    intro s hfuel
    have h0 : adjust_fuel from_x padding s = 0 := Nat.le_zero.mp hfuel
    unfold adjust_fuel at h0
    have hceil : ⌈(s - from_x - padding) / 10⌉ ≤ 0 := by omega
    have hdiv : (s - from_x - padding) / 10 ≤ 0 := by
      have := Int.ceil_le.mp hceil
      exact_mod_cast this
    have hnum : s - from_x - padding ≤ 0 := by
      by_contra hpos
      push_neg at hpos
      have : (0 : ℚ) < (s - from_x - padding) / 10 := div_pos hpos (by norm_num)
      linarith
    refine ⟨?_, 0, ?_⟩
    · simp only [adjust_go]
      rintro ⟨_, h2⟩
      linarith
    · simp [adjust_go]
  | succ fuel ih =>
    intro s hfuel
    by_cases hcond : to_x < s + padding ∧ from_x + padding < s
    · have hstep : adjust_go to_x from_x padding (fuel + 1) s =
          adjust_go to_x from_x padding fuel (s - 10) := by
        simp [adjust_go, hcond]
      have hnumpos : 0 < s - from_x - padding := by
        have := hcond.2
        linarith
      have hceilpos : 0 < ⌈(s - from_x - padding) / 10⌉ :=
        Int.ceil_pos.mpr (div_pos hnumpos (by norm_num))
      have hshift : (s - 10 - from_x - padding) / 10 =
          (s - from_x - padding) / 10 - 1 := by
        field_simp
        ring
      have hfuel' : adjust_fuel from_x padding (s - 10) ≤ fuel := by
        unfold adjust_fuel at hfuel ⊢
        rw [hshift, Int.ceil_sub_one]
        omega
      obtain ⟨hexit, n, hn⟩ := ih (s - 10) hfuel'
      rw [hstep]
      refine ⟨hexit, n + 1, ?_⟩
      rw [hn]
      push_cast
      ring
    · have hstep : adjust_go to_x from_x padding (fuel + 1) s = s := by
        simp only [adjust_go, if_neg hcond]
      rw [hstep]
      exact ⟨hcond, 0, by ring⟩

/-- The inputs of `Arrow.calculate_path` (`src/arrow.js` lines 25-112):
the two bars' geometry, the two tasks' row indices, and the gantt
options and config values the routine reads. -/
structure ArrowInput where
  from_x : ℚ
  from_width : ℚ
  from_index : ℤ
  to_x : ℚ
  to_y : ℚ
  to_height : ℚ
  to_index : ℤ
  padding : ℚ
  arrow_curve : ℚ
  bar_height : ℚ
  header_height : ℚ

/-- Which of the two path shapes `calculate_path` emitted. -/
inductive PathShape where
  | backward
  | forward
deriving DecidableEq

/-- The numeric values appearing in the SVG path emitted by
`Arrow.calculate_path`.  `curve_y_init` is the value assigned to
`curve_y` at `src/arrow.js` line 64, before the backward-case fixup may
recompute it; `down_1`, `down_2` and `left` are meaningful only for the
backward shape and `offset` only for the forward shape (the unused
fields are set to 0). -/
structure PathResult where
  start_x : ℚ
  start_y : ℚ
  end_x : ℚ
  end_y : ℚ
  clockwise : ℕ
  curve : ℚ
  curve_y : ℚ
  curve_y_init : ℚ
  shape : PathShape
  down_1 : ℚ
  down_2 : ℚ
  left : ℚ
  offset : ℚ

/-- `Arrow.calculate_path` from `src/arrow.js` lines 25-112.  The
source's `from_is_below_to = from.index > to.index` is written
`i.to_index < i.from_index`. -/
def calculate_path (i : ArrowInput) : PathResult :=
  let start_x := adjust_start_x i.to_x i.from_x i.padding (i.from_x + i.from_width / 2) - 10
  let start_y := i.header_height + i.bar_height +
    (i.padding + i.bar_height) * (i.from_index : ℚ) + i.padding / 2
  let end_x := i.to_x - 13
  let end_y := i.header_height + i.bar_height / 2 +
    (i.padding + i.bar_height) * (i.to_index : ℚ) + i.padding / 2
  let curve := i.arrow_curve
  let clockwise : ℕ := if i.to_index < i.from_index then 1 else 0
  let curve_y := if i.to_index < i.from_index then -curve else curve
  if i.to_x ≤ i.from_x + i.padding then
    let down_1 := i.padding / 2 - curve
    let down_1' := if down_1 < 0 then 0 else down_1
    let curve' := if down_1 < 0 then i.padding / 2 else curve
    let curve_y' :=
      if down_1 < 0 then
        (if i.to_index < i.from_index then -(i.padding / 2) else i.padding / 2)
      else curve_y
    let down_2 := i.to_y + i.to_height / 2 - curve_y'
    let left := i.to_x - i.padding
    { start_x := start_x, start_y := start_y, end_x := end_x, end_y := end_y,
      clockwise := clockwise, curve := curve', curve_y := curve_y',
      curve_y_init := curve_y, shape := PathShape.backward,
      down_1 := down_1', down_2 := down_2, left := left, offset := 0 }
  else
    let curve' := if end_x < start_x + curve then end_x - start_x else curve
    let offset := if i.to_index < i.from_index then end_y + curve' else end_y - curve'
    { start_x := start_x, start_y := start_y, end_x := end_x, end_y := end_y,
      clockwise := clockwise, curve := curve', curve_y := curve_y,
      curve_y_init := curve_y, shape := PathShape.forward,
      down_1 := 0, down_2 := 0, left := 0, offset := offset }

/-- The bar y coordinate of the task in the given row (spec §4.2),
restated on the fields the arrow router sees; `bar_y_eq_compute_y`
links it to the task-geometry model. -/
def bar_y (header_height padding bar_height : ℚ) (index : ℤ) : ℚ :=
  header_height + (padding + bar_height) * (index : ℚ) + padding / 2

/-- `bar_y` agrees with `compute_y` of the task-geometry model. -/
theorem bar_y_eq_compute_y (t : GanttTask) (g : GanttConfig) :
    bar_y g.header_height g.padding g.bar_height t.index = compute_y t g := rfl

/-- C3: for every pair of bars, the path computation sets
`clockwise = 1` exactly when `from.index > to.index` and `0` otherwise
(in particular when `from.index < to.index`), and assigns
`curve_y = -curve` when `from.index > to.index` and `+curve` otherwise
(`curve` being the configured `arrow_curve` at that assignment). -/
theorem calculate_path_clockwise_curve_y (i : ArrowInput) :
    (calculate_path i).clockwise = (if i.to_index < i.from_index then 1 else 0) ∧
    (calculate_path i).curve_y_init =
      (if i.to_index < i.from_index then -i.arrow_curve else i.arrow_curve) := by
  unfold calculate_path
  by_cases hb : i.to_x ≤ i.from_x + i.padding
  · rw [if_pos hb]
    exact ⟨rfl, rfl⟩
  · rw [if_neg hb]
    exact ⟨rfl, rfl⟩

/-- Counterexample to C4 as stated: for the concrete forward arrow
below (row 0 to row 1, `header_height = 50`, `padding = 18`,
`bar_height = 30`), the path's start y is `89`, the *bottom edge* of
the from bar (`bar_y ... = 59` plus the full bar height), not the from
bar's vertical mid-line `59 + 15 = 74`. -/
theorem calculate_path_start_y_not_midline :
    (calculate_path ⟨0, 100, 0, 200, 104, 30, 1, 18, 5, 30, 50⟩).start_y ≠
      bar_y 50 18 30 0 + 30 / 2 := by
  norm_num [calculate_path, bar_y]

/-- C4 (amended): for every pair of bars, the arrow path starts at
vertical coordinate equal to the from bar's y (spec §4.2 row formula,
`bar_y`) plus the *full* bar height — the from bar's bottom edge — and
ends at the point `(to.x − 13, to bar's y + half the bar height)`,
i.e. the vertical mid-line of the to bar. -/
theorem calculate_path_anchors (i : ArrowInput) :
    (calculate_path i).start_y =
      bar_y i.header_height i.padding i.bar_height i.from_index + i.bar_height ∧
    (calculate_path i).end_x = i.to_x - 13 ∧
    (calculate_path i).end_y =
      bar_y i.header_height i.padding i.bar_height i.to_index + i.bar_height / 2 := by
  unfold calculate_path bar_y
  by_cases hb : i.to_x ≤ i.from_x + i.padding
  · rw [if_pos hb]
    refine ⟨?_, rfl, ?_⟩ <;> dsimp only <;> ring
  · rw [if_neg hb]
    refine ⟨?_, rfl, ?_⟩ <;> dsimp only <;> ring

/-- The start x emitted by `calculate_path` is the adjustment loop's
result minus the final unconditional 10-pixel step. -/
theorem calculate_path_start_x_eq (i : ArrowInput) :
    (calculate_path i).start_x =
      adjust_start_x i.to_x i.from_x i.padding (i.from_x + i.from_width / 2) - 10 := by
  unfold calculate_path
  by_cases hb : i.to_x ≤ i.from_x + i.padding
  · rw [if_pos hb]
  · rw [if_neg hb]

/-- C5: the arrow's horizontal origin starts from
`from.x + from.width/2`, is decremented by 10 while both
`to.x < start_x + padding` and `start_x > from.x + padding` hold
(so the final value is the start minus `10 × n` minus the final
unconditional 10), and the loop exits with its guard false — it
terminates for every input. -/
theorem calculate_path_start_x_loop (i : ArrowInput) :
    (∃ n : ℕ, (calculate_path i).start_x =
      i.from_x + i.from_width / 2 - 10 * n - 10) ∧
    ¬(i.to_x < ((calculate_path i).start_x + 10) + i.padding ∧
        i.from_x + i.padding < (calculate_path i).start_x + 10) := by
  obtain ⟨hexit, n, hn⟩ := adjust_go_exit i.to_x i.from_x i.padding
    (adjust_fuel i.from_x i.padding (i.from_x + i.from_width / 2))
    (i.from_x + i.from_width / 2) (le_refl _)
  rw [calculate_path_start_x_eq i]
  unfold adjust_start_x
  constructor
  · exact ⟨n, by rw [hn]⟩
  · have hc : adjust_go i.to_x i.from_x i.padding
        (adjust_fuel i.from_x i.padding (i.from_x + i.from_width / 2))
        (i.from_x + i.from_width / 2) - 10 + 10 =
        adjust_go i.to_x i.from_x i.padding
        (adjust_fuel i.from_x i.padding (i.from_x + i.from_width / 2))
        (i.from_x + i.from_width / 2) := by ring
    rw [hc]
    exact hexit

/-- C6: the backward path shape is emitted exactly when
`to.x ≤ from.x + padding`, and in that shape, whenever
`padding/2 − curve` is negative the vertical drop before the first arc
becomes 0, the curve is reduced to `padding/2`, and `curve_y` is
recomputed from the reduced curve with the sign given by the row
order. -/
theorem calculate_path_backward_case (i : ArrowInput) :
    ((calculate_path i).shape = PathShape.backward ↔
      i.to_x ≤ i.from_x + i.padding) ∧
    (i.to_x ≤ i.from_x + i.padding → i.padding / 2 - i.arrow_curve < 0 →
      (calculate_path i).down_1 = 0 ∧
      (calculate_path i).curve = i.padding / 2 ∧
      (calculate_path i).curve_y =
        (if i.to_index < i.from_index then -(i.padding / 2) else i.padding / 2)) := by
  unfold calculate_path
  by_cases hb : i.to_x ≤ i.from_x + i.padding
  · rw [if_pos hb]
    refine ⟨by simp [hb], ?_⟩
    intro _ hneg
    dsimp only
    rw [if_pos hneg, if_pos hneg, if_pos hneg]
    exact ⟨rfl, rfl, rfl⟩
  · rw [if_neg hb]
    refine ⟨?_, fun h => absurd h hb⟩
    simp [hb]

/-- The curve emitted in the forward shape, before case analysis. -/
theorem calculate_path_curve_forward (i : ArrowInput)
    (h : i.from_x + i.padding < i.to_x) :
    (calculate_path i).curve =
      if (calculate_path i).end_x < (calculate_path i).start_x + i.arrow_curve
      then (calculate_path i).end_x - (calculate_path i).start_x
      else i.arrow_curve := by
  unfold calculate_path
  rw [if_neg (not_le.mpr h)]

/-- C7: in the forward case (`to.x > from.x + padding`), whenever
`end_x < start_x + arrow_curve` the curve radius used in the emitted
path equals exactly `end_x − start_x`, and otherwise the configured
`arrow_curve` is used unchanged. -/
theorem calculate_path_forward_curve (i : ArrowInput)
    (h : i.from_x + i.padding < i.to_x) :
    ((calculate_path i).end_x < (calculate_path i).start_x + i.arrow_curve →
      (calculate_path i).curve =
        (calculate_path i).end_x - (calculate_path i).start_x) ∧
    (¬((calculate_path i).end_x < (calculate_path i).start_x + i.arrow_curve) →
      (calculate_path i).curve = i.arrow_curve) := by
  have hcf := calculate_path_curve_forward i h
  constructor
  · intro hc
    rw [hcf, if_pos hc]
  · intro hc
    rw [hcf, if_neg hc]

/-- Witness for C5 at a concrete input (forward arrow, no loop
iterations). -/
theorem calculate_path_start_x_loop_witness :
    (∃ n : ℕ, (calculate_path ⟨0, 20, 0, 100, 0, 30, 1, 10, 5, 30, 50⟩).start_x =
      0 + 20 / 2 - 10 * n - 10) ∧
    ¬((100 : ℚ) < ((calculate_path ⟨0, 20, 0, 100, 0, 30, 1, 10, 5, 30, 50⟩).start_x + 10) + 10 ∧
        (0 : ℚ) + 10 < (calculate_path ⟨0, 20, 0, 100, 0, 30, 1, 10, 5, 30, 50⟩).start_x + 10) :=
  calculate_path_start_x_loop ⟨0, 20, 0, 100, 0, 30, 1, 10, 5, 30, 50⟩

/-- Witness for C6 at a concrete backward input with
`padding/2 − curve < 0` (`padding = 18`, `arrow_curve = 10`). -/
theorem calculate_path_backward_case_witness :
    (calculate_path ⟨100, 40, 0, 50, 104, 30, 1, 18, 10, 30, 50⟩).down_1 = 0 ∧
    (calculate_path ⟨100, 40, 0, 50, 104, 30, 1, 18, 10, 30, 50⟩).curve = 18 / 2 ∧
    (calculate_path ⟨100, 40, 0, 50, 104, 30, 1, 18, 10, 30, 50⟩).curve_y =
      (if (1 : ℤ) < (0 : ℤ) then -((18 : ℚ) / 2) else (18 : ℚ) / 2) :=
  (calculate_path_backward_case ⟨100, 40, 0, 50, 104, 30, 1, 18, 10, 30, 50⟩).2
    (by norm_num) (by norm_num)

/-- Witness for C7 at a concrete forward input where the curve is not
shrunk. -/
theorem calculate_path_forward_curve_witness :
    (calculate_path ⟨0, 20, 0, 100, 0, 30, 1, 10, 5, 30, 50⟩).curve = 5 :=
  (calculate_path_forward_curve ⟨0, 20, 0, 100, 0, 30, 1, 10, 5, 30, 50⟩
    (by norm_num)).2
    (by norm_num [calculate_path, adjust_start_x, adjust_fuel, adjust_go])

end Gantt
